import Mathlib

/-!
Verification of the slot-availability core of src/app.py (booking app).

Times of day are modelled as minutes after midnight (Nat), absolute
instants as minutes after the epoch of day ordinals (Int), a calendar
date as its day ordinal (Nat, Python date.toordinal, ordinal 1 being a
Monday).  All datetime arithmetic in the source stays within a single
day combined with timedelta arithmetic, which this captures exactly.
-/

/-- Python date.isoweekday on the ordinal representation: ordinal 1
(0001-01-01) is a Monday, so isoweekday d = ((d - 1) mod 7) + 1. -/
def isoweekday (d : Nat) : Nat := (d + 6) % 7 + 1

/-- Minutes in a day. -/
def minutesPerDay : Int := 1440

/-- app.py line 34. -/
def SLOT_STEP_MIN : Int := 10

/-- app.py line 35. -/
def BUFFER_MIN_DEFAULT : Int := 5

/-- app.py lines 39-47: the weekly availability dict; dict.get with
default [] modelled by the final else branch (any key other than 1..6,
including 7 = Sunday and out-of-range integers, yields []). -/
def DEFAULT_DISPONIBILIDAD_CODE (w : Int) : List (String × String) :=
  if w = 1 then [("09:00", "13:00"), ("14:00", "17:00")]
  else if w = 2 then [("09:00", "17:00")]
  else if w = 3 then [("09:00", "17:00")]
  else if w = 4 then [("09:00", "17:00")]
  else if w = 5 then [("09:00", "15:00")]
  else if w = 6 then [("09:00", "15:00")]
  else []

/-- Digit run of a Python int() literal: ASCII digits in which a single
underscore may stand between two digits (CPython grammar); the
accumulator is the decimal value. -/
def pyDigitsAux : Nat → List Char → Option Nat
  | acc, [] => some acc
  | acc, c :: rest =>
    if c.isDigit then pyDigitsAux (acc * 10 + (c.toNat - 48)) rest
    else if c = '_' then
      match rest with
      | c2 :: rest2 =>
        if c2.isDigit then pyDigitsAux (acc * 10 + (c2.toNat - 48)) rest2 else none
      | [] => none
    else none

/-- Nonempty digit run (first char must be a digit). -/
def pyDigits : List Char → Option Nat
  | [] => none
  | c :: rest => if c.isDigit then pyDigitsAux (c.toNat - 48) rest else none

/-- ASCII whitespace stripped by Python str.strip and int(). -/
def pyIsSpace (c : Char) : Bool :=
  c = ' ' || c = '\t' || c = '\n' || c = '\r' || c = '\x0b' || c = '\x0c'

/-- Python str.strip(): drop whitespace from both ends. -/
def pyStrip (cs : List Char) : List Char :=
  ((cs.dropWhile pyIsSpace).reverse.dropWhile pyIsSpace).reverse

/-- Python s.split(sep) for a one-character separator: empty pieces
are preserved, so a string of n separators yields n + 1 pieces. -/
def splitCh (sep : Char) : List Char → List (List Char)
  | [] => [[]]
  | c :: rest =>
    if c = sep then [] :: splitCh sep rest
    else
      match splitCh sep rest with
      | piece :: pieces => (c :: piece) :: pieces
      | [] => [[c]]

/-- Python int(str): surrounding whitespace stripped, optional sign,
then a digit run; None models the ValueError path. -/
def pyInt (cs : List Char) : Option Int :=
  match pyStrip cs with
  | '+' :: rest => (pyDigits rest).map (fun n => (n : Int))
  | '-' :: rest => (pyDigits rest).map (fun n => -(n : Int))
  | stripped => (pyDigits stripped).map (fun n => (n : Int))

/-- app.py lines 65-73, to_time: strip, require a colon, split on the
colon, int() both parts, build datetime.time (which demands hour in
[0,23] and minute in [0,59]); every failure path returns None. -/
def to_time (hhmm : String) : Option Nat :=
  if pyStrip hhmm.toList = [] ∨ ¬ ((pyStrip hhmm.toList).contains ':') then none
  else
    match splitCh ':' (pyStrip hhmm.toList) with
    | hh :: mm :: _ =>
      match pyInt hh, pyInt mm with
      | some h, some m =>
        if 0 ≤ h ∧ h ≤ 23 ∧ 0 ≤ m ∧ m ≤ 59 then some (h.toNat * 60 + m.toNat)
        else none
      | _, _ => none
    | _ => none

/-- Digit value of an ASCII digit char. -/
def d2n (c : Char) : Nat := c.toNat - 48

/-- strptime field %H: the regex 2[0-3]|[0-1]d|d, alternatives tried in
that order, returning the parsed hour and the unconsumed input. -/
def parseH : List Char → Option (Nat × List Char)
  | [] => none
  | [c] => if c.isDigit then some (d2n c, []) else none
  | c1 :: c2 :: rest =>
    if c1 = '2' ∧ c2.isDigit ∧ d2n c2 ≤ 3 then some (20 + d2n c2, rest)
    else if (c1 = '0' ∨ c1 = '1') ∧ c2.isDigit then some (d2n c1 * 10 + d2n c2, rest)
    else if c1.isDigit then some (d2n c1, c2 :: rest)
    else none

/-- strptime field %M: the regex [0-5]d|d. -/
def parseM : List Char → Option (Nat × List Char)
  | [] => none
  | [c] => if c.isDigit then some (d2n c, []) else none
  | c1 :: c2 :: rest =>
    if c1.isDigit ∧ d2n c1 ≤ 5 ∧ c2.isDigit then some (d2n c1 * 10 + d2n c2, rest)
    else if c1.isDigit then some (d2n c1, c2 :: rest)
    else none

/-- datetime.strptime(s, "%H:%M").time() as minutes after midnight:
hour, a literal colon, minute, and no unconverted data may remain;
None models the ValueError path (app.py lines 257-264). -/
def parseHM (s : String) : Option Nat :=
  match parseH s.toList with
  | some (h, rest) =>
    match rest with
    | ':' :: rest2 =>
      match parseM rest2 with
      | some (m, []) => some (h * 60 + m)
      | _ => none
    | _ => none
  | none => none

/-- A turnos row as consumed by generar_slots: fecha (day ordinal after
pandas date parsing), inicio and fin as raw HH:MM strings, estado. -/
structure Turno where
  fecha : Nat
  inicio : String
  fin : String
  estado : String
deriving DecidableEq, Repr

/-- A servicios row: tipo, zona, duracion_min, precio (both numeric
columns coerced to int by db_get_servicios). -/
structure Servicio where
  tipo : String
  zona : String
  duracion_min : Int
  precio : Int
deriving DecidableEq, Repr

/-- app.py lines 75-76. -/
def overlaps (start1 end1 start2 end2 : Int) : Bool :=
  decide (start1 < end2 ∧ start2 < end1)

/-- app.py lines 206-210: sum of duracion_min over rows with the given
tipo whose zona is among zonas; empty frame or empty selection gives 0. -/
def calc_duracion (servicios : List Servicio) (tipo : String) (zonas : List String) : Int :=
  if servicios = [] then 0
  else if servicios.filter (fun s => decide (s.tipo = tipo ∧ s.zona ∈ zonas)) = [] then 0
  else ((servicios.filter (fun s => decide (s.tipo = tipo ∧ s.zona ∈ zonas))).map
    Servicio.duracion_min).sum

/-- app.py lines 212-216: same selection, summing precio. -/
def calc_precio (servicios : List Servicio) (tipo : String) (zonas : List String) : Int :=
  if servicios = [] then 0
  else if servicios.filter (fun s => decide (s.tipo = tipo ∧ s.zona ∈ zonas)) = [] then 0
  else ((servicios.filter (fun s => decide (s.tipo = tipo ∧ s.zona ∈ zonas))).map
    Servicio.precio).sum

/-- app.py lines 230-237: rows of the requested date whose estado is
not Cancelado (the only status that frees the time range). -/
def activos (turnos : List Turno) (d : Nat) : List Turno :=
  turnos.filter (fun t => decide (t.fecha = d ∧ t.estado ≠ "Cancelado"))

/-- app.py lines 255-269, the per-candidate check against one turno:
strptime both endpoints (the except clause skips the row on any parse
failure) and test overlaps of the buffered candidate against the
turno's interval on day d. -/
def blocks (d : Nat) (buff c_start c_end : Int) (t : Turno) : Bool :=
  match parseHM t.inicio, parseHM t.fin with
  | some ts, some tf =>
    overlaps (c_start - buff) (c_end + buff)
      ((d : Int) * minutesPerDay + ts) ((d : Int) * minutesPerDay + tf)
  | _, _ => false

/-- app.py lines 250-272, the while loop of one window: from current,
while current + dur <= end_window, emit current when no active turno
blocks it, then advance by step.  The loop is written on explicit fuel
so that it is structurally recursive and kernel-evaluable; the callers
pass fuel equal to the number of minutes left in the window plus one,
which bounds the iteration count whenever step >= 1.  The Python loop
does not terminate when step <= 0 and the window admits a candidate;
that unreachable configuration (the app always passes step = 10) is
modelled by the 0 < step conjunct of the guard. -/
def genSlotsFrom (d : Nat) (buff dur step endW : Int) (act : List Turno) :
    Nat → Int → List Int
  | 0, _ => []
  | fuel + 1, current =>
    if current + dur ≤ endW ∧ 0 < step then
      if act.all (fun t => ! (blocks d buff current (current + dur) t)) then
        current :: genSlotsFrom d buff dur step endW act fuel (current + step)
      else
        genSlotsFrom d buff dur step endW act fuel (current + step)
    else []

/-- app.py lines 244-249: to_time of both endpoints of a configured
window, as one optional pair; None when either endpoint fails, which
is the condition under which the source's continue skips the window. -/
def parseWindow (w : String × String) : Option (Nat × Nat) :=
  match to_time w.1, to_time w.2 with
  | some a, some b => some (a, b)
  | _, _ => none

/-- The windows of a day that parse, in configuration order. -/
def parsedWindows (tramos : List (String × String)) : List (Nat × Nat) :=
  tramos.filterMap parseWindow

/-- app.py lines 244-272, one (ini, fin) window: to_time both ends,
skip the window when either is None, else run the candidate loop from
the window start to the window end combined with the date. -/
def windowSlots (d : Nat) (dur step buff : Int) (act : List Turno)
    (w : String × String) : List Int :=
  match parseWindow w with
  | some (ti, tf) =>
    genSlotsFrom d buff dur step ((d : Int) * minutesPerDay + tf) act
      (((tf : Int) + 1 - ti - dur).toNat) ((d : Int) * minutesPerDay + ti)
  | none => []

/-- Concatenation of the window results in window order. -/
def slotsOfTramos (d : Nat) (dur step buff : Int) (act : List Turno)
    (tramos : List (String × String)) : List Int :=
  (tramos.map (windowSlots d dur step buff act)).flatten

/-- app.py lines 274-276: seen-dict deduplication keeping the first
occurrence of each instant in order. -/
def dedupGo : List Int → List Int → List Int
  | _, [] => []
  | seen, x :: xs => if x ∈ seen then dedupGo seen xs else x :: dedupGo (x :: seen) xs

/-- dedupGo started from an empty seen set. -/
def dedupFirst (l : List Int) : List Int := dedupGo [] l

/-- app.py lines 218-276, generar_slots.  The source reads the buffer
from the module constant BUFFER_MIN_DEFAULT (line 242); it is passed
here as the explicit parameter buff so that statements can quantify
over it, and the app instantiates buff = BUFFER_MIN_DEFAULT. -/
def generar_slots (d : Nat) (dur_min : Int) (turnos : List Turno)
    (slot_step_min buff : Int) : List Int :=
  if dur_min ≤ 0 then []
  else if DEFAULT_DISPONIBILIDAD_CODE (isoweekday d) = [] then []
  else
    dedupFirst (slotsOfTramos d dur_min slot_step_min buff (activos turnos d)
      (DEFAULT_DISPONIBILIDAD_CODE (isoweekday d)))

/-- app.py lines 278-284: on the request date equal to the current
date keep only slots strictly after now; otherwise return the list
unchanged.  now is the current instant in minutes after the epoch
(always nonnegative), its calendar date is now / 1440. -/
def filter_future_slots (d : Nat) (slots : List Int) (now : Nat) : List Int :=
  if slots = [] then []
  else if d = now / 1440 then slots.filter (fun s => decide ((now : Int) < s))
  else slots

/-- Modelled from the spec (section 4.1): the AvailabilityCalendar
contract windowsFor, which the spec requires to fail with
InvalidWeekday outside [1,7]; stated here only to compare against the
source's lookup, which has no failure path. -/
def windowsForSpec (w : Int) : Except String (List (String × String)) :=
  if 1 ≤ w ∧ w ≤ 7 then Except.ok (DEFAULT_DISPONIBILIDAD_CODE w)
  else Except.error "InvalidWeekday"

/-! ### Library lemmas about the embedded definitions -/

theorem mem_dedupGo : ∀ (l seen : List Int) (x : Int),
    x ∈ dedupGo seen l ↔ x ∈ l ∧ x ∉ seen := by
  intro l
  induction l with
  | nil => intro seen x; simp [dedupGo]
  | cons a as ih =>
    intro seen x
    simp only [dedupGo]
    by_cases ha : a ∈ seen
    · rw [if_pos ha, ih]
      constructor
      · rintro ⟨hx, hxs⟩
        exact ⟨List.mem_cons_of_mem _ hx, hxs⟩
      · rintro ⟨hx, hxs⟩
        rcases List.mem_cons.mp hx with rfl | h
        · exact absurd ha hxs
        · exact ⟨h, hxs⟩
    · rw [if_neg ha]
      constructor
      · intro hx
        rcases List.mem_cons.mp hx with rfl | h
        · exact ⟨List.mem_cons_self _ _, ha⟩
        · have h2 := (ih (a :: seen) x).mp h
          exact ⟨List.mem_cons_of_mem _ h2.1,
            fun hc => h2.2 (List.mem_cons_of_mem _ hc)⟩
      · rintro ⟨hx, hxs⟩
        rcases List.mem_cons.mp hx with rfl | h
        · exact List.mem_cons_self _ _
        · by_cases hxa : x = a
          · subst hxa; exact List.mem_cons_self _ _
          · refine List.mem_cons_of_mem _ ((ih (a :: seen) x).mpr ⟨h, ?_⟩)
            intro hc
            rcases List.mem_cons.mp hc with h1 | h1
            · exact hxa h1
            · exact hxs h1

theorem mem_dedupFirst (l : List Int) (x : Int) : x ∈ dedupFirst l ↔ x ∈ l := by
  unfold dedupFirst
  rw [mem_dedupGo]
  simp

theorem dedupGo_eq_of_nodup : ∀ (l seen : List Int), l.Nodup →
    (∀ x ∈ l, x ∉ seen) → dedupGo seen l = l := by
  intro l
  induction l with
  | nil => intro seen _ _; rfl
  | cons a as ih =>
    intro seen hnd hdisj
    simp only [dedupGo]
    rw [if_neg (hdisj a (List.mem_cons_self a as))]
    have hnd2 := List.nodup_cons.mp hnd
    congr 1
    apply ih (a :: seen) hnd2.2
    intro x hx hc
    rcases List.mem_cons.mp hc with rfl | h1
    · exact hnd2.1 hx
    · exact hdisj x (List.mem_cons_of_mem _ hx) h1

theorem dedupFirst_eq_of_nodup (l : List Int) (h : l.Nodup) : dedupFirst l = l :=
  dedupGo_eq_of_nodup l [] h (by simp)

theorem genSlotsFrom_mem (d : Nat) (buff dur step endW : Int) (act : List Turno) :
    ∀ (fuel : Nat) (current x : Int),
      x ∈ genSlotsFrom d buff dur step endW act fuel current →
        current ≤ x ∧ x + dur ≤ endW ∧ 0 < step ∧
          act.all (fun t => ! (blocks d buff x (x + dur) t)) = true := by
  intro fuel
  induction fuel with
  | zero => intro current x hx; simp [genSlotsFrom] at hx
  | succ n ih =>
    intro current x hx
    simp only [genSlotsFrom] at hx
    by_cases hguard : current + dur ≤ endW ∧ 0 < step
    · rw [if_pos hguard] at hx
      by_cases hall : (act.all fun t => ! blocks d buff current (current + dur) t) = true
      · rw [if_pos hall] at hx
        rcases List.mem_cons.mp hx with rfl | hx2
        · exact ⟨le_refl _, hguard.1, hguard.2, hall⟩
        · have h2 := ih (current + step) x hx2
          have hst := hguard.2
          have h21 := h2.1
          exact ⟨by omega, h2.2.1, h2.2.2.1, h2.2.2.2⟩
      · rw [if_neg hall] at hx
        have h2 := ih (current + step) x hx
        have hst := hguard.2
        have h21 := h2.1
        exact ⟨by omega, h2.2.1, h2.2.2.1, h2.2.2.2⟩
    · rw [if_neg hguard] at hx
      simp at hx

theorem genSlotsFrom_pairwise (d : Nat) (buff dur step endW : Int) (act : List Turno) :
    ∀ (fuel : Nat) (current : Int),
      (genSlotsFrom d buff dur step endW act fuel current).Pairwise (· < ·) := by
  intro fuel
  induction fuel with
  | zero => intro current; simp [genSlotsFrom]
  | succ n ih =>
    intro current
    simp only [genSlotsFrom]
    by_cases hguard : current + dur ≤ endW ∧ 0 < step
    · rw [if_pos hguard]
      by_cases hall : (act.all fun t => ! blocks d buff current (current + dur) t) = true
      · rw [if_pos hall]
        refine List.Pairwise.cons ?_ (ih (current + step))
        intro y hy
        have h2 := genSlotsFrom_mem d buff dur step endW act n (current + step) y hy
        have hst := hguard.2
        have h21 := h2.1
        omega
      · rw [if_neg hall]
        exact ih (current + step)
    · rw [if_neg hguard]
      exact List.Pairwise.nil

theorem genSlotsFrom_mono (d : Nat) (buff dur step endW : Int) (act1 act2 : List Turno)
    (hsub : ∀ t ∈ act2, t ∈ act1) :
    ∀ (fuel : Nat) (current x : Int),
      x ∈ genSlotsFrom d buff dur step endW act1 fuel current →
        x ∈ genSlotsFrom d buff dur step endW act2 fuel current := by
  intro fuel
  induction fuel with
  | zero => intro current x hx; simp [genSlotsFrom] at hx
  | succ n ih =>
    intro current x hx
    simp only [genSlotsFrom] at hx ⊢
    by_cases hguard : current + dur ≤ endW ∧ 0 < step
    · rw [if_pos hguard] at hx ⊢
      by_cases hall1 : (act1.all fun t => ! blocks d buff current (current + dur) t) = true
      · rw [if_pos hall1] at hx
        have hall2 : (act2.all fun t => ! blocks d buff current (current + dur) t) = true := by
          rw [List.all_eq_true] at hall1 ⊢
          intro t ht
          exact hall1 t (hsub t ht)
        rw [if_pos hall2]
        rcases List.mem_cons.mp hx with rfl | hx2
        · exact List.mem_cons_self _ _
        · exact List.mem_cons_of_mem _ (ih (current + step) x hx2)
      · rw [if_neg hall1] at hx
        have hmem := ih (current + step) x hx
        by_cases hall2 : (act2.all fun t => ! blocks d buff current (current + dur) t) = true
        · rw [if_pos hall2]
          exact List.mem_cons_of_mem _ hmem
        · rw [if_neg hall2]
          exact hmem
    · rw [if_neg hguard] at hx
      simp at hx

theorem genSlotsFrom_congr_noblock (d : Nat) (buff dur step endW : Int)
    (A B : List Turno) (t : Turno) (hb : ∀ cs ce, blocks d buff cs ce t = false) :
    ∀ (fuel : Nat) (current : Int),
      genSlotsFrom d buff dur step endW (A ++ t :: B) fuel current =
        genSlotsFrom d buff dur step endW (A ++ B) fuel current := by
  intro fuel
  induction fuel with
  | zero => intro current; rfl
  | succ n ih =>
    intro current
    simp only [genSlotsFrom]
    have hall : ((A ++ t :: B).all fun u => ! blocks d buff current (current + dur) u) =
        ((A ++ B).all fun u => ! blocks d buff current (current + dur) u) := by
      simp [List.all_append, List.all_cons, hb]
    rw [hall, ih (current + step)]

theorem parseWindow_eq_some (w : String × String) (ti tf : Nat) :
    parseWindow w = some (ti, tf) ↔ to_time w.1 = some ti ∧ to_time w.2 = some tf := by
  unfold parseWindow
  cases h1 : to_time w.1 <;> cases h2 : to_time w.2 <;> simp

theorem windowSlots_mem (d : Nat) (dur step buff : Int) (act : List Turno)
    (w : String × String) (x : Int) (hx : x ∈ windowSlots d dur step buff act w) :
    ∃ ti tf, parseWindow w = some (ti, tf) ∧
      (d : Int) * minutesPerDay + ti ≤ x ∧ x + dur ≤ (d : Int) * minutesPerDay + tf ∧
      0 < step ∧ act.all (fun t => ! (blocks d buff x (x + dur) t)) = true := by
  rcases hpw : parseWindow w with _ | ⟨ti, tf⟩
  · simp [windowSlots, hpw] at hx
  · simp only [windowSlots, hpw] at hx
    have h2 := genSlotsFrom_mem d buff dur step ((d : Int) * minutesPerDay + tf) act
      (((tf : Int) + 1 - ti - dur).toNat) ((d : Int) * minutesPerDay + ti) x hx
    exact ⟨ti, tf, rfl, h2.1, h2.2.1, h2.2.2.1, h2.2.2.2⟩

theorem windowSlots_pairwise (d : Nat) (dur step buff : Int) (act : List Turno)
    (w : String × String) : (windowSlots d dur step buff act w).Pairwise (· < ·) := by
  rcases hpw : parseWindow w with _ | ⟨ti, tf⟩
  · simp [windowSlots, hpw]
  · simp only [windowSlots, hpw]
    exact genSlotsFrom_pairwise d buff dur step _ act _ _

theorem windowSlots_mono (d : Nat) (dur step buff : Int) (act1 act2 : List Turno)
    (hsub : ∀ t ∈ act2, t ∈ act1) (w : String × String) (x : Int)
    (hx : x ∈ windowSlots d dur step buff act1 w) :
    x ∈ windowSlots d dur step buff act2 w := by
  rcases hpw : parseWindow w with _ | ⟨ti, tf⟩
  · simp [windowSlots, hpw] at hx
  · simp only [windowSlots, hpw] at hx ⊢
    exact genSlotsFrom_mono d buff dur step _ act1 act2 hsub _ _ x hx

theorem windowSlots_congr_noblock (d : Nat) (dur step buff : Int) (A B : List Turno)
    (t : Turno) (hb : ∀ cs ce, blocks d buff cs ce t = false) (w : String × String) :
    windowSlots d dur step buff (A ++ t :: B) w = windowSlots d dur step buff (A ++ B) w := by
  rcases hpw : parseWindow w with _ | ⟨ti, tf⟩
  · simp [windowSlots, hpw]
  · simp only [windowSlots, hpw]
    exact genSlotsFrom_congr_noblock d buff dur step _ A B t hb _ _

theorem slotsOfTramos_mem (d : Nat) (dur step buff : Int) (act : List Turno)
    (tramos : List (String × String)) (x : Int) :
    x ∈ slotsOfTramos d dur step buff act tramos ↔
      ∃ w ∈ tramos, x ∈ windowSlots d dur step buff act w := by
  simp only [slotsOfTramos, List.mem_flatten, List.mem_map]
  constructor
  · rintro ⟨l, ⟨w, hw, rfl⟩, hx⟩
    exact ⟨w, hw, hx⟩
  · rintro ⟨w, hw, hx⟩
    exact ⟨_, ⟨w, hw, rfl⟩, hx⟩

theorem slotsOfTramos_pairwise (d : Nat) (dur step buff : Int) (act : List Turno)
    (tramos : List (String × String)) (hdur : 0 < dur)
    (hsorted : (parsedWindows tramos).Pairwise (fun p q => p.2 ≤ q.1)) :
    (slotsOfTramos d dur step buff act tramos).Pairwise (· < ·) := by
  unfold slotsOfTramos
  rw [List.pairwise_flatten]
  constructor
  · intro l hl
    rw [List.mem_map] at hl
    obtain ⟨w, hw, rfl⟩ := hl
    exact windowSlots_pairwise d dur step buff act w
  · rw [List.pairwise_map]
    unfold parsedWindows at hsorted
    rw [List.pairwise_filterMap] at hsorted
    refine hsorted.imp ?_
    intro w w' hrel x hx y hy
    obtain ⟨ti, tf, hpw, hb1, hb2, hs1, hall1⟩ := windowSlots_mem d dur step buff act w x hx
    obtain ⟨ti2, tf2, hpw2, hb3, hb4, hs2, hall2⟩ := windowSlots_mem d dur step buff act w' y hy
    have hle : tf ≤ ti2 :=
      hrel (ti, tf) (Option.mem_def.mpr hpw) (ti2, tf2) (Option.mem_def.mpr hpw2)
    simp only [minutesPerDay] at hb1 hb2 hb3 hb4
    omega

theorem slotsOfTramos_mono (d : Nat) (dur step buff : Int) (act1 act2 : List Turno)
    (hsub : ∀ t ∈ act2, t ∈ act1) (tramos : List (String × String)) (x : Int)
    (hx : x ∈ slotsOfTramos d dur step buff act1 tramos) :
    x ∈ slotsOfTramos d dur step buff act2 tramos := by
  rw [slotsOfTramos_mem] at hx ⊢
  obtain ⟨w, hw, hmem⟩ := hx
  exact ⟨w, hw, windowSlots_mono d dur step buff act1 act2 hsub w x hmem⟩

theorem slotsOfTramos_congr_noblock (d : Nat) (dur step buff : Int) (A B : List Turno)
    (t : Turno) (hb : ∀ cs ce, blocks d buff cs ce t = false)
    (tramos : List (String × String)) :
    slotsOfTramos d dur step buff (A ++ t :: B) tramos =
      slotsOfTramos d dur step buff (A ++ B) tramos := by
  unfold slotsOfTramos
  congr 1
  apply List.map_congr_left
  intro w _
  exact windowSlots_congr_noblock d dur step buff A B t hb w

theorem generar_slots_congr_activos (d : Nat) (dur step buff : Int)
    (turnos1 turnos2 : List Turno) (h : activos turnos1 d = activos turnos2 d) :
    generar_slots d dur turnos1 step buff = generar_slots d dur turnos2 step buff := by
  unfold generar_slots
  rw [h]

theorem generar_slots_mono (d : Nat) (dur step buff : Int) (turnos1 turnos2 : List Turno)
    (h : ∀ t ∈ activos turnos2 d, t ∈ activos turnos1 d) :
    ∀ s ∈ generar_slots d dur turnos1 step buff, s ∈ generar_slots d dur turnos2 step buff := by
  intro s hs
  unfold generar_slots at hs ⊢
  by_cases h1 : dur ≤ 0
  · rw [if_pos h1] at hs
    simp at hs
  · rw [if_neg h1] at hs ⊢
    by_cases h2 : DEFAULT_DISPONIBILIDAD_CODE (isoweekday d) = []
    · rw [if_pos h2] at hs
      simp at hs
    · rw [if_neg h2] at hs ⊢
      rw [mem_dedupFirst] at hs ⊢
      exact slotsOfTramos_mono d dur step buff (activos turnos1 d) (activos turnos2 d) h
        (DEFAULT_DISPONIBILIDAD_CODE (isoweekday d)) s hs

/-! ### Claim theorems -/

/-- C7: for every date, appointment list, step and buffer, a zero or
negative requested duration makes generar_slots return the empty
sequence (the guard on line 223 of app.py), and this is a normal
return value, not an error. -/
theorem generar_slots_nonpositive_duration (d : Nat) (dur step buff : Int)
    (turnos : List Turno) (hdur : dur ≤ 0) :
    generar_slots d dur turnos step buff = [] := by
  unfold generar_slots
  rw [if_pos hdur]

/-- C7 witness at dur = 0. -/
theorem generar_slots_nonpositive_duration_witness :
    generar_slots 5 0 [] 10 5 = [] :=
  generar_slots_nonpositive_duration 5 0 10 5 [] (by decide)

/-- C9: the past-time filter returns a subsequence of its input, and
for every date other than the current date of now, including past
dates, it returns the input unchanged. -/
theorem filter_future_slots_sublist (d : Nat) (slots : List Int) (now : Nat) :
    (filter_future_slots d slots now).Sublist slots ∧
      (d ≠ now / 1440 → filter_future_slots d slots now = slots) := by
  unfold filter_future_slots
  by_cases h0 : slots = []
  · subst h0
    simp
  · rw [if_neg h0]
    by_cases hd : d = now / 1440
    · rw [if_pos hd]
      exact ⟨List.filter_sublist slots, fun h => absurd hd h⟩
    · rw [if_neg hd]
      exact ⟨List.Sublist.refl slots, fun _ => rfl⟩

/-- C9 witness: identity on a date equal to the current date minus two
(7800 minutes is 10:00 of day 5). -/
theorem filter_future_slots_sublist_witness :
    (filter_future_slots 5 [7740] 7800).Sublist [7740] ∧
      filter_future_slots 3 [7740] 7800 = [7740] :=
  ⟨(filter_future_slots_sublist 5 [7740] 7800).1,
   (filter_future_slots_sublist 3 [7740] 7800).2 (by decide)⟩

/-- C4: when the requested date is the current date of now, the filter
keeps exactly the slots strictly after now (hence no kept slot is at
or before now), and when the requested date is strictly later than
now's date the filter returns its input unchanged. -/
theorem filter_future_slots_today (d : Nat) (slots : List Int) (now : Nat) :
    (d = now / 1440 →
        filter_future_slots d slots now = slots.filter (fun s => decide ((now : Int) < s))) ∧
      (d = now / 1440 → ∀ s ∈ filter_future_slots d slots now, (now : Int) < s) ∧
      (now / 1440 < d → filter_future_slots d slots now = slots) := by
  unfold filter_future_slots
  by_cases h0 : slots = []
  · subst h0
    simp
  · rw [if_neg h0]
    refine ⟨?_, ?_, ?_⟩
    · intro hd
      rw [if_pos hd]
    · intro hd s hs
      rw [if_pos hd] at hs
      rw [List.mem_filter] at hs
      simpa using hs.2
    · intro hd
      rw [if_neg (by omega)]

/-- C4 witness: on day 5 at 10:00 (7800 minutes), the 09:00 slot of
day 5 is dropped and the later one kept; for day 6 the list passes
through unchanged. -/
theorem filter_future_slots_today_witness :
    filter_future_slots 5 [7740, 8000] 7800 = [8000] ∧
      filter_future_slots 6 [7740, 8000] 7800 = [7740, 8000] :=
  ⟨((filter_future_slots_today 5 [7740, 8000] 7800).1 (by decide)).trans (by decide),
   (filter_future_slots_today 6 [7740, 8000] 7800).2.2 (by decide)⟩

/-- C6 counterexample: the claim says the weekday-windows lookup fails
with InvalidWeekday for integer weekdays outside [1,7], but the
source's lookup (DEFAULT_DISPONIBILIDAD_CODE.get(weekday, []) on line
226 of app.py) has no failure path at all: at 8 and at 0 it returns
the empty window list, the same value as a configured closed day,
while the spec-modelled contract windowsForSpec errors there. -/
theorem windowsFor_no_failure_counterexample :
    DEFAULT_DISPONIBILIDAD_CODE 8 = [] ∧ DEFAULT_DISPONIBILIDAD_CODE 0 = [] ∧
      windowsForSpec 8 = Except.error "InvalidWeekday" :=
  ⟨rfl, rfl, rfl⟩

/-- C6 amended: for every integer weekday outside [1,7] the lookup
does not fail but returns the empty sequence (such inputs are
unreachable from generar_slots because isoweekday always lies in
[1,7]); within [1,7] it is a pure lookup that agrees with the spec
contract, returning the configured windows or an empty sequence for a
day with no availability. -/
theorem windowsFor_amended :
    (∀ w : Int, w < 1 ∨ 7 < w → DEFAULT_DISPONIBILIDAD_CODE w = []) ∧
      (∀ d : Nat, 1 ≤ isoweekday d ∧ isoweekday d ≤ 7) ∧
      (∀ w : Int, 1 ≤ w ∧ w ≤ 7 →
        windowsForSpec w = Except.ok (DEFAULT_DISPONIBILIDAD_CODE w)) := by
  refine ⟨?_, ?_, ?_⟩
  · intro w hw
    unfold DEFAULT_DISPONIBILIDAD_CODE
    split_ifs with h1 h2 h3 h4 h5 h6 <;> first | rfl | (exfalso; omega)
  · intro d
    unfold isoweekday
    have h7 : (d + 6) % 7 < 7 := Nat.mod_lt _ (by omega)
    omega
  · intro w hw
    unfold windowsForSpec
    rw [if_pos hw]

/-- C6 witness: the lookup at the out-of-range weekday 9 yields the
empty list, and at the in-range weekday 2 it matches the spec
contract. -/
theorem windowsFor_amended_witness :
    DEFAULT_DISPONIBILIDAD_CODE 9 = [] ∧
      windowsForSpec 2 = Except.ok (DEFAULT_DISPONIBILIDAD_CODE 2) :=
  ⟨windowsFor_amended.1 9 (by decide), windowsFor_amended.2.2 2 (by decide)⟩

/-- C8: the duration and price totals are exactly the sums of
duracion_min and precio over the catalog rows whose tipo matches and
whose zona belongs to the chosen zonas; an empty selection (including
an empty catalog) yields zero for both. -/
theorem calc_totals_sum (servicios : List Servicio) (tipo : String) (zonas : List String) :
    calc_duracion servicios tipo zonas =
        ((servicios.filter (fun s => decide (s.tipo = tipo ∧ s.zona ∈ zonas))).map
          Servicio.duracion_min).sum ∧
      calc_precio servicios tipo zonas =
        ((servicios.filter (fun s => decide (s.tipo = tipo ∧ s.zona ∈ zonas))).map
          Servicio.precio).sum ∧
      (servicios.filter (fun s => decide (s.tipo = tipo ∧ s.zona ∈ zonas)) = [] →
        calc_duracion servicios tipo zonas = 0 ∧ calc_precio servicios tipo zonas = 0) := by
  have hd : calc_duracion servicios tipo zonas =
      ((servicios.filter (fun s => decide (s.tipo = tipo ∧ s.zona ∈ zonas))).map
        Servicio.duracion_min).sum := by
    unfold calc_duracion
    by_cases h0 : servicios = []
    · subst h0
      simp
    · rw [if_neg h0]
      by_cases h1 : servicios.filter (fun s => decide (s.tipo = tipo ∧ s.zona ∈ zonas)) = []
      · rw [if_pos h1, h1]
        simp
      · rw [if_neg h1]
  have hp : calc_precio servicios tipo zonas =
      ((servicios.filter (fun s => decide (s.tipo = tipo ∧ s.zona ∈ zonas))).map
        Servicio.precio).sum := by
    unfold calc_precio
    by_cases h0 : servicios = []
    · subst h0
      simp
    · rw [if_neg h0]
      by_cases h1 : servicios.filter (fun s => decide (s.tipo = tipo ∧ s.zona ∈ zonas)) = []
      · rw [if_pos h1, h1]
        simp
      · rw [if_neg h1]
  refine ⟨hd, hp, fun h => ⟨?_, ?_⟩⟩
  · rw [hd, h]
    simp
  · rw [hp, h]
    simp

/-- C8 witness: a one-row catalog with no matching tipo gives zero
duration and zero price. -/
theorem calc_totals_sum_witness :
    calc_duracion [⟨"A", "z", 10, 5⟩] "B" ["z"] = 0 ∧
      calc_precio [⟨"A", "z", 10, 5⟩] "B" ["z"] = 0 :=
  (calc_totals_sum [⟨"A", "z", 10, 5⟩] "B" ["z"]).2.2 (by decide)

/-- C1: every start time s emitted by generar_slots yields an interval
[s, s + dur) that does not overlap the occupying interval of any
non-cancelled appointment of that date once that interval is expanded
by buff on both ends, where half-open intervals overlap iff a1 < b2
and b1 < a2 (the code buffers the candidate instead, which is the
same predicate shifted by buff). -/
theorem generar_slots_no_overlap (d : Nat) (dur step buff : Int) (turnos : List Turno)
    (hdur : 0 < dur) (hstep : 0 < step) (s : Int)
    (hs : s ∈ generar_slots d dur turnos step buff)
    (t : Turno) (ht : t ∈ turnos) (hdate : t.fecha = d) (hstatus : t.estado ≠ "Cancelado")
    (ts tf : Nat) (hts : parseHM t.inicio = some ts) (htf : parseHM t.fin = some tf) :
    overlaps s (s + dur) ((d : Int) * minutesPerDay + ts - buff)
      ((d : Int) * minutesPerDay + tf + buff) = false := by
  unfold generar_slots at hs
  rw [if_neg (by omega : ¬ dur ≤ 0)] at hs
  by_cases h2 : DEFAULT_DISPONIBILIDAD_CODE (isoweekday d) = []
  · rw [if_pos h2] at hs
    simp at hs
  · rw [if_neg h2] at hs
    rw [mem_dedupFirst, slotsOfTramos_mem] at hs
    obtain ⟨w, hw, hmem⟩ := hs
    obtain ⟨ti, tf2, hpw, hb1, hb2, hs1, hall⟩ :=
      windowSlots_mem d dur step buff (activos turnos d) w s hmem
    have hact : t ∈ activos turnos d := by
      unfold activos
      rw [List.mem_filter]
      exact ⟨ht, by simp [hdate, hstatus]⟩
    have hblock := List.all_eq_true.mp hall t hact
    have hbf : blocks d buff s (s + dur) t = false := by
      revert hblock
      cases blocks d buff s (s + dur) t <;> simp
    simp only [blocks, hts, htf] at hbf
    simp only [overlaps, decide_eq_false_iff_not] at hbf ⊢
    simp only [minutesPerDay] at hbf ⊢
    omega

/-- C2: provided the configured windows of the date's weekday are
non-overlapping and listed in ascending order (each parsed window ends
no later than every later one starts), the output of generar_slots is
strictly ascending with no duplicate start instants, for every
duration, step, buffer and appointment list. -/
theorem generar_slots_sorted_nodup (d : Nat) (dur step buff : Int) (turnos : List Turno)
    (hsorted : (parsedWindows (DEFAULT_DISPONIBILIDAD_CODE (isoweekday d))).Pairwise
      (fun p q => p.2 ≤ q.1)) :
    (generar_slots d dur turnos step buff).Pairwise (· < ·) ∧
      (generar_slots d dur turnos step buff).Nodup := by
  unfold generar_slots
  by_cases h1 : dur ≤ 0
  · rw [if_pos h1]
    exact ⟨List.Pairwise.nil, List.nodup_nil⟩
  · rw [if_neg h1]
    by_cases h2 : DEFAULT_DISPONIBILIDAD_CODE (isoweekday d) = []
    · rw [if_pos h2]
      exact ⟨List.Pairwise.nil, List.nodup_nil⟩
    · rw [if_neg h2]
      have hp := slotsOfTramos_pairwise d dur step buff (activos turnos d)
        (DEFAULT_DISPONIBILIDAD_CODE (isoweekday d)) (by omega) hsorted
      have hnd : (slotsOfTramos d dur step buff (activos turnos d)
          (DEFAULT_DISPONIBILIDAD_CODE (isoweekday d))).Nodup :=
        hp.imp (fun h => ne_of_lt h)
      rw [dedupFirst_eq_of_nodup _ hnd]
      exact ⟨hp, hnd⟩

/-- C3: turning exactly one appointment of the list from a
non-cancelled status into Cancelado, all of its other fields and all
other inputs unchanged, never removes an emitted start time, and the
cancelled appointment excludes no candidate at all: the new output
coincides with the output computed without that appointment. -/
theorem cancelled_frees_slots (d : Nat) (dur step buff : Int) (pre post : List Turno)
    (t t' : Turno) (hf : t'.fecha = t.fecha) (hi : t'.inicio = t.inicio)
    (hfin : t'.fin = t.fin) (hstat : t.estado ≠ "Cancelado")
    (hstat' : t'.estado = "Cancelado") :
    (∀ s ∈ generar_slots d dur (pre ++ t :: post) step buff,
        s ∈ generar_slots d dur (pre ++ t' :: post) step buff) ∧
      generar_slots d dur (pre ++ t' :: post) step buff =
        generar_slots d dur (pre ++ post) step buff := by
  have hact' : activos (pre ++ t' :: post) d = activos (pre ++ post) d := by
    unfold activos
    rw [List.filter_append, List.filter_append,
      List.filter_cons_of_neg (by simp [hstat'])]
  have heq : generar_slots d dur (pre ++ t' :: post) step buff =
      generar_slots d dur (pre ++ post) step buff :=
    generar_slots_congr_activos d dur step buff _ _ hact'
  refine ⟨?_, heq⟩
  intro s hs
  rw [heq]
  refine generar_slots_mono d dur step buff (pre ++ t :: post) (pre ++ post) ?_ s hs
  intro u hu
  unfold activos at hu ⊢
  rw [List.mem_filter] at hu ⊢
  refine ⟨?_, hu.2⟩
  have := hu.1
  simp only [List.mem_append, List.mem_cons] at this ⊢
  tauto

/-- C5: an appointment of the requested date whose inicio or fin does
not parse under the HH:MM format is skipped by the except clause: it
excludes no candidate, slot generation completes normally, and the
output equals the output computed without that appointment. -/
theorem malformed_turno_skipped (d : Nat) (dur step buff : Int) (pre post : List Turno)
    (t : Turno) (hdate : t.fecha = d)
    (hbad : parseHM t.inicio = none ∨ parseHM t.fin = none) :
    generar_slots d dur (pre ++ t :: post) step buff =
      generar_slots d dur (pre ++ post) step buff := by
  have hb : ∀ cs ce, blocks d buff cs ce t = false := by
    intro cs ce
    rcases hbad with h | h
    · simp [blocks, h]
    · cases h1 : parseHM t.inicio with
      | none => simp [blocks, h1]
      | some a => simp [blocks, h1, h]
  by_cases hp : (t.fecha = d ∧ t.estado ≠ "Cancelado")
  · have h1 : activos (pre ++ t :: post) d = activos pre d ++ t :: activos post d := by
      unfold activos
      rw [List.filter_append, List.filter_cons_of_pos (by simpa using hp)]
    have h2 : activos (pre ++ post) d = activos pre d ++ activos post d := by
      unfold activos
      rw [List.filter_append]
    unfold generar_slots
    rw [h1, h2, slotsOfTramos_congr_noblock d dur step buff (activos pre d)
      (activos post d) t hb (DEFAULT_DISPONIBILIDAD_CODE (isoweekday d))]
  · have h1 : activos (pre ++ t :: post) d = activos (pre ++ post) d := by
      unfold activos
      rw [List.filter_append, List.filter_append,
        List.filter_cons_of_neg (by simpa using hp)]
    exact generar_slots_congr_activos d dur step buff _ _ h1

theorem to_time_lt (s : String) (t : Nat) (h : to_time s = some t) : t < 1440 := by
  unfold to_time at h
  split at h
  · exact absurd h (by simp)
  · split at h
    · split at h
      · split at h
        · rename_i hcond
          injection h with h2
          omega
        · exact absurd h (by simp)
      · exact absurd h (by simp)
    · exact absurd h (by simp)

/-- C10: the time-of-day parser to_time is total, returning None or a
valid time of day (strictly less than 24:00) on every input string,
and a configured window whose start or end fails to_time is skipped
whole by slot generation while the remaining windows of the day are
still processed: dropping that window from the day's window list does
not change the produced slots. -/
theorem to_time_total_window_skip :
    (∀ s : String, to_time s = none ∨ ∃ t, to_time s = some t ∧ t < 1440) ∧
      (∀ (d : Nat) (dur step buff : Int) (act : List Turno)
        (pre post : List (String × String)) (w : String × String),
        to_time w.1 = none ∨ to_time w.2 = none →
          slotsOfTramos d dur step buff act (pre ++ w :: post) =
            slotsOfTramos d dur step buff act (pre ++ post)) := by
  constructor
  · intro s
    cases hts : to_time s with
    | none => exact Or.inl rfl
    | some t => exact Or.inr ⟨t, rfl, to_time_lt s t hts⟩
  · intro d dur step buff act pre post w hbad
    have hpw : parseWindow w = none := by
      unfold parseWindow
      rcases hbad with h | h
      · rw [h]
      · cases h1 : to_time w.1 with
        | none => rfl
        | some a => rw [h]
    have hws : windowSlots d dur step buff act w = [] := by
      simp [windowSlots, hpw]
    unfold slotsOfTramos
    rw [List.map_append, List.map_append, List.map_cons]
    rw [List.flatten_append, List.flatten_append, List.flatten_cons, hws]
    simp

/-- C1 witness: on Friday day 5 with a 23:00-23:30 appointment, the
emitted slot 7740 (09:00 of day 5) does not overlap the buffered
occupying interval. -/
theorem generar_slots_no_overlap_witness :
    (7740 : Int) ∈ generar_slots 5 350 [⟨5, "23:00", "23:30", "Confirmado"⟩] 10 5 ∧
      overlaps 7740 (7740 + 350) (((5 : Nat) : Int) * minutesPerDay + 1380 - 5)
        (((5 : Nat) : Int) * minutesPerDay + 1410 + 5) = false :=
  ⟨by decide,
   generar_slots_no_overlap 5 350 10 5 [⟨5, "23:00", "23:30", "Confirmado"⟩]
     (by decide) (by decide) 7740 (by decide) ⟨5, "23:00", "23:30", "Confirmado"⟩
     (by decide) rfl (by decide) 1380 1410 (by decide) (by decide)⟩

/-- C2 witness: Monday (day 1) with its two configured windows
satisfies the ordering hypothesis, and the generated list is strictly
ascending without duplicates. -/
theorem generar_slots_sorted_nodup_witness :
    (parsedWindows (DEFAULT_DISPONIBILIDAD_CODE (isoweekday 1))).Pairwise
        (fun p q => p.2 ≤ q.1) ∧
      (generar_slots 1 170 [] 10 5).Pairwise (· < ·) ∧ (generar_slots 1 170 [] 10 5).Nodup :=
  ⟨by decide, generar_slots_sorted_nodup 1 170 10 5 [] (by decide)⟩

/-- C3 witness: cancelling a day-filling 09:00-15:00 appointment on
Friday day 5 keeps every previously emitted slot and makes the output
equal to the appointment-free output. -/
theorem cancelled_frees_slots_witness :
    (∀ s ∈ generar_slots 5 350
        ([] ++ (⟨5, "09:00", "15:00", "Confirmado"⟩ : Turno) :: []) 10 5,
        s ∈ generar_slots 5 350
          ([] ++ (⟨5, "09:00", "15:00", "Cancelado"⟩ : Turno) :: []) 10 5) ∧
      generar_slots 5 350 ([] ++ (⟨5, "09:00", "15:00", "Cancelado"⟩ : Turno) :: []) 10 5 =
        generar_slots 5 350 ([] ++ ([] : List Turno)) 10 5 :=
  cancelled_frees_slots 5 350 10 5 [] [] ⟨5, "09:00", "15:00", "Confirmado"⟩
    ⟨5, "09:00", "15:00", "Cancelado"⟩ rfl rfl rfl (by decide) rfl

/-- C5 witness: an appointment of day 5 whose inicio does not parse is
ignored by slot generation. -/
theorem malformed_turno_skipped_witness :
    generar_slots 5 350 ([] ++ (⟨5, "garbage", "15:00", "Confirmado"⟩ : Turno) :: []) 10 5 =
      generar_slots 5 350 ([] ++ ([] : List Turno)) 10 5 :=
  malformed_turno_skipped 5 350 10 5 [] [] ⟨5, "garbage", "15:00", "Confirmado"⟩ rfl
    (Or.inl (by decide))

/-- C10 witness: a window with unparseable start is dropped while the
following window is still processed. -/
theorem to_time_total_window_skip_witness :
    slotsOfTramos 5 350 10 5 [] ([] ++ ("bad", "15:00") :: [("10:00", "11:00")]) =
      slotsOfTramos 5 350 10 5 [] ([] ++ [("10:00", "11:00")]) :=
  to_time_total_window_skip.2 5 350 10 5 [] [] [("10:00", "11:00")] ("bad", "15:00")
    (Or.inl (by decide))
